import Mathlib

/-!
Shallow embedding of the financial analysis engine of
`src/finance_dashboard.py` (the analysis helpers and the `FinancialAnalyzer`
class), with theorems checking the natural-language specification against it.

Modelling conventions:
* pandas floats become `ℚ` (exact arithmetic);
* a DataFrame of transactions becomes a `List Tx`;
* a missing (NaN) `Category` cell becomes `none` — pandas `groupby` drops
  rows whose group key is NaN;
* a pandas Series produced by `groupby(k)[v].sum()` becomes a list of
  (key, sum) pairs with distinct keys sorted ascending, which is exactly the
  index order pandas produces;
* `sort_values(ascending=False)` is modelled as a stable ascending sort
  followed by a reversal: pandas `nargsort` computes an ascending argsort and
  reverses the indexer for descending order, and numpy's quicksort is
  insertion sort (stable) on small arrays;
* each f-string message template becomes one constructor of an inductive
  message type, carrying exactly the numbers the template embeds.
-/

/-- A calendar date (year, month, day); time-of-day is irrelevant to the code. -/
structure Date where
  year : Nat
  month : Nat
  day : Nat
deriving DecidableEq

/-- Lexicographic order on dates, matching chronological order of valid dates. -/
def Date.leb (a b : Date) : Bool :=
  decide (a.year < b.year ∨ (a.year = b.year ∧
    (a.month < b.month ∨ (a.month = b.month ∧ a.day ≤ b.day))))

/-- One transaction row: `Date`, signed `Amount`, `Category`, `Account`.
`category = none` models a NaN Category cell (pandas `groupby` drops those
rows); `load_data` only backfills the default when the whole column is
missing, so NaN cells can reach the analyzer. -/
structure Tx where
  date : Date
  amount : ℚ
  category : Option String
  account : String
deriving DecidableEq

/-- Insert `a` into `l` just before the first element `b` with `le a b = true`.
This is the insertion step of a stable insertion sort. -/
def insertBy (le : α → α → Bool) (a : α) : List α → List α
  | [] => [a]
  | b :: bs => if le a b then a :: b :: bs else b :: insertBy le a bs

/-- Stable insertion sort: elements that compare equal keep their input order
(an earlier element stays before a later equal one). numpy's quicksort kind
falls back to insertion sort on small arrays, so this is the concrete sort
the dashboard's small series go through. -/
def sortBy (le : α → α → Bool) : List α → List α
  | [] => []
  | a :: as => insertBy le a (sortBy le as)

/-- Insert a key into a strictly `lt`-sorted duplicate-free list of keys,
keeping it sorted and duplicate-free. -/
def insertKey (lt : κ → κ → Bool) (k : κ) : List κ → List κ
  | [] => [k]
  | a :: as =>
    if lt k a then k :: a :: as
    else if lt a k then a :: insertKey lt k as
    else a :: as

/-- The distinct keys of `l`, sorted ascending by `lt`: the index of a pandas
`groupby` result (pandas sorts group keys ascending). -/
def keysOf (lt : κ → κ → Bool) : List κ → List κ
  | [] => []
  | k :: ks => insertKey lt k (keysOf lt ks)

/-- `df.groupby(key)[value].sum()`: one row per distinct key, keys ascending,
each paired with the sum of the values carrying that key. -/
def groupSumBy [DecidableEq κ] (lt : κ → κ → Bool) (l : List (κ × ℚ)) :
    List (κ × ℚ) :=
  (keysOf lt (l.map Prod.fst)).map
    (fun k => (k, ((l.filter (fun p => decide (p.1 = k))).map Prod.snd).sum))

/-- Order on month keys `(year, month)`: lexicographic. -/
def monthLt (a b : Nat × Nat) : Bool :=
  decide (a.1 < b.1 ∨ (a.1 = b.1 ∧ a.2 < b.2))

/-- Order on category labels, Python/pandas string comparison. -/
def strLt (a b : String) : Bool :=
  decide (a < b)

/-- Comparison of category rows by spending value (for `sort_values`). -/
def valLe (a b : String × ℚ) : Bool :=
  decide (a.2 ≤ b.2)

/-- Comparison of transactions by date (for `sort_values("Date")`). -/
def txDateLe (a b : Tx) : Bool :=
  Date.leb a.date b.date

/-- `Date.dt.to_period("M")`: the month key of a date, day truncated. -/
def monthKey (d : Date) : Nat × Nat :=
  (d.year, d.month)

/-- `df.groupby("Month")["Amount"].sum()` where `Month` is the period of
`Date`: the monthly net series, keys ascending chronologically. -/
def monthlyNet (l : List Tx) : List ((Nat × Nat) × ℚ) :=
  groupSumBy monthLt (l.map (fun t => (monthKey t.date, t.amount)))

/-- `df[df["Amount"] > 0]["Amount"].sum()`. -/
def totalIncomeOf (l : List Tx) : ℚ :=
  ((l.filter (fun t => decide (0 < t.amount))).map Tx.amount).sum

/-- `df[df["Amount"] < 0]["Amount"].sum()` (non-positive). -/
def totalExpensesOf (l : List Tx) : ℚ :=
  ((l.filter (fun t => decide (t.amount < 0))).map Tx.amount).sum

/-- The (Category, Amount) rows of `df[df["Amount"] < 0]` that survive
`groupby("Category")` — rows with a NaN category are dropped by pandas. -/
def spendingRows (l : List Tx) : List (String × ℚ) :=
  l.filterMap (fun t =>
    if t.amount < 0 then t.category.map (fun c => (c, t.amount)) else none)

/-- `series.sort_values(ascending=False)`: pandas computes the ascending
argsort and reverses it (`nargsort`), so with the stable underlying sort the
result is descending by value with equal values in reverse of their input
order. -/
def sortValuesDesc (l : List (String × ℚ)) : List (String × ℚ) :=
  (sortBy valLe l).reverse

/-- `df[df["Amount"] < 0].groupby("Category")["Amount"].sum().abs()
.sort_values(ascending=False)`: the category-spending mapping. -/
def spendingOf (l : List Tx) : List (String × ℚ) :=
  sortValuesDesc ((groupSumBy strLt (spendingRows l)).map
    (fun p => (p.1, |p.2|)))

/-- Running sums starting from `acc` (`Series.cumsum`). -/
def cumsumFrom (acc : ℚ) : List ℚ → List ℚ
  | [] => []
  | a :: as => (acc + a) :: cumsumFrom (acc + a) as

/-- The `Cumulative` column: amounts of the date-sorted transactions, summed
cumulatively. -/
def cumulativeOf (l : List Tx) : List ℚ :=
  cumsumFrom 0 ((sortBy txDateLe l).map Tx.amount)

/-- `spending.sum()` over a category-spending series. -/
def totalSpend (s : List (String × ℚ)) : ℚ :=
  (s.map Prod.snd).sum

/-- The message templates of `calculate_savings_health`, one constructor per
f-string, carrying the embedded rate. -/
inductive SavingsMsg where
  | noIncome
  | deficit (overspendPct : ℚ)
  | excellent (rate : ℚ)
  | good (rate : ℚ)
  | moderate (rate : ℚ)
  | low (rate : ℚ)
deriving DecidableEq

/-- `calculate_savings_health(total_income, total_expenses)`. -/
def calculate_savings_health (total_income total_expenses : ℚ) : SavingsMsg :=
  if total_income ≤ 0 then SavingsMsg.noIncome
  else
    let net_savings := total_income + total_expenses
    let savings_rate := net_savings / total_income * 100
    if net_savings < 0 then SavingsMsg.deficit |savings_rate|
    else if savings_rate ≥ 25 then SavingsMsg.excellent savings_rate
    else if savings_rate ≥ 15 then SavingsMsg.good savings_rate
    else if savings_rate ≥ 5 then SavingsMsg.moderate savings_rate
    else SavingsMsg.low savings_rate

/-- The message templates of `generate_month_over_month_insights`. -/
inductive TrendMsg where
  | noData
  | notEnoughMonths
  | nearZero
  | sigImprove (pct : ℚ)
  | slightImprove (pct : ℚ)
  | sigDecline (pct : ℚ)
  | slightDecline (pct : ℚ)
  | stable
deriving DecidableEq

/-- The values at positions `iloc[-2]` and `iloc[-1]` of a series, as
`(prev, last)`; `none` when fewer than two rows exist. -/
def lastTwo (m : List ((Nat × Nat) × ℚ)) : Option (ℚ × ℚ) :=
  match m.reverse with
  | lastP :: prevP :: _ => some (prevP.2, lastP.2)
  | _ => none

/-- `generate_month_over_month_insights(df)`. -/
def generate_month_over_month_insights (txs : List Tx) : List TrendMsg :=
  if txs = [] then [TrendMsg.noData]
  else
    match lastTwo (monthlyNet txs) with
    | none => [TrendMsg.notEnoughMonths]
    | some (prev, last) =>
      if |prev| < 1 then [TrendMsg.nearZero]
      else
        let pct_change := (last - prev) / |prev| * 100
        if pct_change > 5 then [TrendMsg.sigImprove pct_change]
        else if pct_change > 0 then [TrendMsg.slightImprove pct_change]
        else if pct_change < -5 then [TrendMsg.sigDecline pct_change]
        else if pct_change < 0 then [TrendMsg.slightDecline pct_change]
        else [TrendMsg.stable]

/-- The band of `detect_spending_concentration`. -/
inductive ConcBand where
  | high
  | notable
  | largest
deriving DecidableEq

/-- The message of `detect_spending_concentration`: the band, the top
category with its share, and the category-count note appended when the
number of categories is at most 3. -/
inductive ConcMsg where
  | noSpending
  | conc (band : ConcBand) (topCat : String) (pct : ℚ) (fewNote : Option Nat)
deriving DecidableEq

/-- `Series.idxmax` together with `Series.max`: the first pair attaining the
maximum value. -/
def idxmaxOf (hd : String × ℚ) (tl : List (String × ℚ)) : String × ℚ :=
  tl.foldl (fun best p => if best.2 < p.2 then p else best) hd

/-- `detect_spending_concentration(spending)`. -/
def detect_spending_concentration (spending : List (String × ℚ)) : ConcMsg :=
  match spending with
  | [] => ConcMsg.noSpending
  | hd :: tl =>
    if totalSpend (hd :: tl) = 0 then ConcMsg.noSpending
    else
      let top := idxmaxOf hd tl
      let pct := top.2 / totalSpend (hd :: tl) * 100
      let n_cats := (hd :: tl).length
      let band :=
        if pct ≥ 50 then ConcBand.high
        else if pct ≥ 35 then ConcBand.notable
        else ConcBand.largest
      ConcMsg.conc band top.1 pct (if n_cats ≤ 3 then some n_cats else none)

/-- The reference table of recommended spending shares, the `benchmarks`
dict of the source. -/
def benchmarkTable : List (String × ℚ) :=
  [("Housing", 30), ("Transportation", 15), ("Groceries", 15)]

/-- The message templates of `benchmark_spending`. -/
inductive BenchMsg where
  | noSpending
  | warning (cat : String) (pct diff : ℚ)
  | within
deriving DecidableEq

/-- The body of the `benchmark_spending` loop: the message appended for the
row `cv` (if any), given the precomputed total. -/
def benchScanRow (total : ℚ) (cv : String × ℚ) : Option BenchMsg :=
  match benchmarkTable.lookup cv.1 with
  | some thresh =>
    let pct := cv.2 / total * 100
    if pct > thresh + 5 then
      some (BenchMsg.warning cv.1 pct (pct - thresh))
    else none
  | none => none

/-- `benchmark_spending(spending)`. -/
def benchmark_spending (spending : List (String × ℚ)) : List BenchMsg :=
  if spending = [] ∨ totalSpend spending = 0 then [BenchMsg.noSpending]
  else
    let messages := spending.filterMap (benchScanRow (totalSpend spending))
    if messages = [] then [BenchMsg.within] else messages

/-- The message templates of `calculate_spending_opportunity`. -/
inductive OppMsg where
  | noSpending
  | cut (cat : String) (savings : ℚ)
  | noQuickWins
deriving DecidableEq

/-- The body of the `calculate_spending_opportunity` loop: the message
appended for the row `cv` (if any), given the precomputed total. The flag
condition is letter-for-letter the one of `benchScanRow`. -/
def oppScanRow (total : ℚ) (cv : String × ℚ) : Option OppMsg :=
  match benchmarkTable.lookup cv.1 with
  | some thresh =>
    let pct := cv.2 / total * 100
    if pct > thresh + 5 then
      some (OppMsg.cut cv.1 (cv.2 - thresh / 100 * total))
    else none
  | none => none

/-- `calculate_spending_opportunity(spending)`. -/
def calculate_spending_opportunity (spending : List (String × ℚ)) :
    List OppMsg :=
  if spending = [] ∨ totalSpend spending = 0 then [OppMsg.noSpending]
  else
    let messages := spending.filterMap (oppScanRow (totalSpend spending))
    if messages = [] then [OppMsg.noQuickWins] else messages

/-- The message templates of `detect_deficit_and_runway`. The deficit
message of the source embeds exactly one number, `abs(latest)`; the
`latestDeficitRunway` form is the message shape the spec describes (deficit
magnitude plus a runway estimate) and is needed to state that claim — the
code never produces it. -/
inductive DeficitMsg where
  | noData
  | noMonthly
  | latestOk
  | latestDeficit (magnitude : ℚ)
  | latestDeficitRunway (magnitude runway : ℚ)
deriving DecidableEq

/-- `detect_deficit_and_runway(df)`. -/
def detect_deficit_and_runway (txs : List Tx) : DeficitMsg :=
  if txs = [] then DeficitMsg.noData
  else
    match (monthlyNet txs).getLast? with
    | none => DeficitMsg.noMonthly
    | some latestRow =>
      if latestRow.2 ≥ 0 then DeficitMsg.latestOk
      else DeficitMsg.latestDeficit |latestRow.2|

/-- The mutable state of the `FinancialAnalyzer` class. `__init__` stores the
account-filtered frame and initialises every analysis field to its sentinel
(`0.0`, `None`, `""`/`[]`); absent messages are `none`/`[]` here. -/
structure FinancialAnalyzer where
  df : List Tx
  total_income : ℚ
  total_expenses : ℚ
  monthly_summary : Option (List ((Nat × Nat) × ℚ))
  spending_by_cat : Option (List (String × ℚ))
  cumulative_flow : Option (List ℚ)
  savings_health : Option SavingsMsg
  mom_insights : List TrendMsg
  concentration : Option ConcMsg
  benchmarks : List BenchMsg
  opportunities : List OppMsg
  deficit_info : Option DeficitMsg
deriving DecidableEq

/-- `FinancialAnalyzer.__init__(df, selected_account)`. -/
def FinancialAnalyzer.init (df : List Tx) (selected_account : String) :
    FinancialAnalyzer :=
  { df := df.filter (fun t => decide (t.account = selected_account))
    total_income := 0
    total_expenses := 0
    monthly_summary := none
    spending_by_cat := none
    cumulative_flow := none
    savings_health := none
    mom_insights := []
    concentration := none
    benchmarks := []
    opportunities := []
    deficit_info := none }

/-- `FinancialAnalyzer.run()`: returns unchanged state when the filtered
frame is empty, otherwise fills every field. -/
def FinancialAnalyzer.run (s : FinancialAnalyzer) : FinancialAnalyzer :=
  if s.df = [] then s
  else
    let ti := totalIncomeOf s.df
    let te := totalExpensesOf s.df
    let spend := spendingOf s.df
    { s with
      total_income := ti
      total_expenses := te
      monthly_summary := some (monthlyNet s.df)
      spending_by_cat := some spend
      cumulative_flow := some (cumulativeOf s.df)
      savings_health := some (calculate_savings_health ti te)
      mom_insights := generate_month_over_month_insights s.df
      concentration := some (detect_spending_concentration spend)
      benchmarks := benchmark_spending spend
      opportunities := calculate_spending_opportunity spend
      deficit_info := some (detect_deficit_and_runway s.df) }

/-- The ordering property claimed by the spec for `category_spending`:
descending by value, ties broken by label ascending. -/
def descTieAsc (s : List (String × ℚ)) : Prop :=
  s.Pairwise (fun a b => b.2 < a.2 ∨ (a.2 = b.2 ∧ a.1 < b.1))

/-- The ordering property the code actually produces: descending by value,
ties broken by label descending (the reversal of the ascending argsort turns
the groupby's ascending-label tie order around). -/
def descTieDesc (s : List (String × ℚ)) : Prop :=
  s.Pairwise (fun a b => b.2 < a.2 ∨ (a.2 = b.2 ∧ b.1 < a.1))

def mainAcct : String := "Main Account"

def catA : String := "A"

def catB : String := "B"

def housingCat : String := "Housing"

def otherCat : String := "Other"

/-- Two months with nets -100 and -50: the spec's deficit/runway example. -/
def exDeficitTxs : List Tx :=
  [⟨⟨2024, 1, 15⟩, -100, none, mainAcct⟩,
   ⟨⟨2024, 2, 15⟩, -50, none, mainAcct⟩]

/-- Two months whose nets are both 0. -/
def exZeroTxs : List Tx :=
  [⟨⟨2024, 1, 1⟩, 10, none, mainAcct⟩,
   ⟨⟨2024, 1, 2⟩, -10, none, mainAcct⟩,
   ⟨⟨2024, 2, 1⟩, 5, none, mainAcct⟩,
   ⟨⟨2024, 2, 2⟩, -5, none, mainAcct⟩]

/-- Monthly nets 100 then 105: the spec's +5.0% boundary example. -/
def exBoundaryTxs : List Tx :=
  [⟨⟨2024, 1, 1⟩, 100, none, mainAcct⟩,
   ⟨⟨2024, 2, 1⟩, 105, none, mainAcct⟩]

/-- Two expense categories with equal 50 totals. -/
def exTieTxs : List Tx :=
  [⟨⟨2024, 1, 1⟩, -50, some catA, mainAcct⟩,
   ⟨⟨2024, 1, 2⟩, -50, some catB, mainAcct⟩]

/-- Housing 4000 of a 10000 spending total: the spec's opportunity example. -/
def exSpending : List (String × ℚ) :=
  [(housingCat, 4000), (otherCat, 6000)]

/-- One income row and one categorized expense row. -/
def exMixedTxs : List Tx :=
  [⟨⟨2024, 1, 5⟩, 100, none, mainAcct⟩,
   ⟨⟨2024, 1, 10⟩, -50, some catA, mainAcct⟩]

theorem mem_insertBy {le : α → α → Bool} (a x : α) (l : List α) :
    x ∈ insertBy le a l ↔ x = a ∨ x ∈ l := by
  induction l with
  | nil => simp [insertBy]
  | cons b bs ih =>
    by_cases h : le a b = true
    · simp only [insertBy, if_pos h, List.mem_cons]
    · simp only [insertBy, if_neg h, List.mem_cons, ih]
      tauto

theorem insertBy_perm (le : α → α → Bool) (a : α) (l : List α) :
    (insertBy le a l).Perm (a :: l) := by
  induction l with
  | nil => simp [insertBy]
  | cons b bs ih =>
    by_cases h : le a b = true
    · simp [insertBy, h]
    · simp only [insertBy, if_neg h]
      exact (ih.cons b).trans (List.Perm.swap a b bs)

theorem sortBy_perm (le : α → α → Bool) (l : List α) :
    (sortBy le l).Perm l := by
  induction l with
  | nil => simp [sortBy]
  | cons a as ih =>
    exact (insertBy_perm le a (sortBy le as)).trans (ih.cons a)

theorem mem_sortBy {le : α → α → Bool} {x : α} {l : List α} :
    x ∈ sortBy le l ↔ x ∈ l :=
  (sortBy_perm le l).mem_iff

/-- The ordering that a stable ascending value sort of a strictly
label-ascending list satisfies: values ascend, and equal values keep their
label-ascending order. -/
def stableQ (a b : String × ℚ) : Prop :=
  a.2 < b.2 ∨ (a.2 = b.2 ∧ a.1 < b.1)

theorem pairwise_insertVal {a : String × ℚ} {l : List (String × ℚ)}
    (hl : l.Pairwise stableQ)
    (ha : ∀ b ∈ l, (a.2 ≤ b.2 → stableQ a b) ∧ (b.2 < a.2 → stableQ b a)) :
    (insertBy valLe a l).Pairwise stableQ := by
  induction l with
  | nil => simp [insertBy]
  | cons b bs ih =>
    rcases List.pairwise_cons.mp hl with ⟨hb, hbs⟩
    by_cases h : a.2 ≤ b.2
    · have hc : valLe a b = true := by simp [valLe, h]
      simp only [insertBy, if_pos hc]
      refine List.Pairwise.cons ?_ hl
      intro x hx
      rcases List.mem_cons.mp hx with rfl | hx
      · exact (ha x (by simp)).1 h
      · by_cases hax : a.2 ≤ x.2
        · exact (ha x (by simp [hx])).1 hax
        · exfalso
          have hqx := hb x hx
          rcases hqx with hlt | ⟨heq, _⟩ <;> push_neg at hax <;> linarith
    · have hc : valLe a b = false := by simp [valLe, h]
      simp only [insertBy, hc, Bool.false_eq_true, if_false]
      push_neg at h
      refine List.Pairwise.cons ?_ (ih hbs fun c hc' => ha c (by simp [hc']))
      intro y hy
      rcases (mem_insertBy a y bs).mp hy with hya | hy
      · subst hya
        exact (ha b (by simp)).2 h
      · exact hb y hy

theorem pairwise_sortVal {l : List (String × ℚ)}
    (hl : l.Pairwise (fun a b => a.1 < b.1)) :
    (sortBy valLe l).Pairwise stableQ := by
  induction l with
  | nil => simp [sortBy]
  | cons a as ih =>
    rcases List.pairwise_cons.mp hl with ⟨ha, has⟩
    refine pairwise_insertVal (ih has) ?_
    intro b hb
    have hlab : a.1 < b.1 := ha b (mem_sortBy.mp hb)
    constructor
    · intro hv
      rcases lt_or_eq_of_le hv with hv | hv
      · exact Or.inl hv
      · exact Or.inr ⟨hv, hlab⟩
    · intro hv
      exact Or.inl hv

theorem mem_of_mem_insertKey {lt : κ → κ → Bool} {k x : κ} {l : List κ}
    (h : x ∈ insertKey lt k l) : x = k ∨ x ∈ l := by
  induction l with
  | nil => simpa [insertKey] using h
  | cons a as ih =>
    by_cases h1 : lt k a = true
    · simp only [insertKey, if_pos h1, List.mem_cons] at h
      simp only [List.mem_cons]
      tauto
    · by_cases h2 : lt a k = true
      · simp only [insertKey, if_neg h1, if_pos h2, List.mem_cons] at h
        rcases h with rfl | h
        · exact Or.inr (by simp)
        · rcases ih h with rfl | h
          · exact Or.inl rfl
          · exact Or.inr (by simp [h])
      · simp only [insertKey, if_neg h1, if_neg h2] at h
        exact Or.inr h

theorem mem_insertKey_of_mem {lt : κ → κ → Bool} {k x : κ} {l : List κ}
    (h : x ∈ l) : x ∈ insertKey lt k l := by
  induction l with
  | nil => simp at h
  | cons a as ih =>
    by_cases h1 : lt k a = true
    · simp only [insertKey, if_pos h1, List.mem_cons]
      rcases List.mem_cons.mp h with rfl | h <;> tauto
    · by_cases h2 : lt a k = true
      · simp only [insertKey, if_neg h1, if_pos h2, List.mem_cons]
        rcases List.mem_cons.mp h with rfl | h
        · exact Or.inl rfl
        · exact Or.inr (ih h)
      · simpa only [insertKey, if_neg h1, if_neg h2] using h

theorem self_mem_insertKey {lt : κ → κ → Bool}
    (htri : ∀ a b, lt a b = false → lt b a = false → a = b) (k : κ)
    (l : List κ) : k ∈ insertKey lt k l := by
  induction l with
  | nil => simp [insertKey]
  | cons a as ih =>
    by_cases h1 : lt k a = true
    · simp [insertKey, h1]
    · by_cases h2 : lt a k = true
      · simp only [insertKey, if_neg h1, if_pos h2, List.mem_cons]
        exact Or.inr ih
      · have hak : a = k :=
          htri a k (by simpa using h2) (by simpa using h1)
        subst hak
        simp [insertKey, h1]

theorem insertKey_pairwise {lt : κ → κ → Bool}
    (htrans : ∀ a b c, lt a b = true → lt b c = true → lt a c = true)
    {k : κ} {l : List κ} (hl : l.Pairwise (fun a b => lt a b = true)) :
    (insertKey lt k l).Pairwise (fun a b => lt a b = true) := by
  induction l with
  | nil => simp [insertKey]
  | cons a as ih =>
    rcases List.pairwise_cons.mp hl with ⟨ha, has⟩
    by_cases h1 : lt k a = true
    · simp only [insertKey, if_pos h1]
      refine List.Pairwise.cons ?_ hl
      intro x hx
      rcases List.mem_cons.mp hx with rfl | hx
      · exact h1
      · exact htrans k a x h1 (ha x hx)
    · by_cases h2 : lt a k = true
      · simp only [insertKey, if_neg h1, if_pos h2]
        refine List.Pairwise.cons ?_ (ih has)
        intro x hx
        rcases mem_of_mem_insertKey hx with rfl | hx
        · exact h2
        · exact ha x hx
      · simpa only [insertKey, if_neg h1, if_neg h2] using hl

theorem keysOf_pairwise {lt : κ → κ → Bool}
    (htrans : ∀ a b c, lt a b = true → lt b c = true → lt a c = true)
    (l : List κ) : (keysOf lt l).Pairwise (fun a b => lt a b = true) := by
  induction l with
  | nil => simp [keysOf]
  | cons k ks ih => exact insertKey_pairwise htrans ih

theorem mem_keysOf {lt : κ → κ → Bool}
    (htri : ∀ a b, lt a b = false → lt b a = false → a = b) {x : κ}
    {l : List κ} (h : x ∈ l) : x ∈ keysOf lt l := by
  induction l with
  | nil => simp at h
  | cons k ks ih =>
    rcases List.mem_cons.mp h with rfl | h
    · exact self_mem_insertKey htri x (keysOf lt ks)
    · exact mem_insertKey_of_mem (ih h)

theorem keysOf_nodup {lt : κ → κ → Bool}
    (htrans : ∀ a b c, lt a b = true → lt b c = true → lt a c = true)
    (hirr : ∀ a, lt a a = false) (l : List κ) : (keysOf lt l).Nodup := by
  refine (keysOf_pairwise htrans l).imp ?_
  intro a b hab
  intro hEq
  subst hEq
  simp [hirr a] at hab

theorem sum_filter_add_sum_filter_not (p : α → Bool) (f : α → ℚ)
    (l : List α) :
    ((l.filter p).map f).sum + ((l.filter (fun a => !p a)).map f).sum
      = (l.map f).sum := by
  induction l with
  | nil => simp
  | cons a as ih =>
    by_cases h : p a = true
    · simp only [List.filter_cons, h, Bool.not_true, Bool.false_eq_true,
        if_true, if_false, List.map_cons, List.sum_cons]
      rw [← ih]
      ring
    · have h' : p a = false := by simpa using h
      simp only [List.filter_cons, h', Bool.not_false, Bool.false_eq_true,
        if_true, if_false, List.map_cons, List.sum_cons]
      rw [← ih]
      ring

theorem sum_groupParts [DecidableEq κ] (ks : List κ) (l : List (κ × ℚ))
    (hnd : ks.Nodup) (hcov : ∀ p ∈ l, p.1 ∈ ks) :
    (ks.map
      (fun k => ((l.filter (fun p => decide (p.1 = k))).map Prod.snd).sum)).sum
      = (l.map Prod.snd).sum := by
  induction ks generalizing l with
  | nil =>
    cases l with
    | nil => simp
    | cons p ps => exact absurd (hcov p (by simp)) (by simp)
  | cons k ks ih =>
    rcases List.pairwise_cons.mp hnd with ⟨hk, hks⟩
    have hrest :
        ((ks.map (fun k' =>
          ((l.filter (fun p => decide (p.1 = k'))).map Prod.snd).sum)).sum)
        = ((ks.map (fun k' =>
          (((l.filter (fun p => !decide (p.1 = k))).filter
            (fun p => decide (p.1 = k'))).map Prod.snd).sum)).sum) := by
      refine congrArg List.sum (List.map_congr_left ?_)
      intro k' hk'
      have hkk : k ≠ k' := hk k' hk'
      rw [List.filter_filter]
      refine congrArg (fun t => (List.map Prod.snd t).sum) ?_
      refine List.filter_congr ?_
      intro p _
      by_cases hp : p.1 = k'
      · have hknot : ¬(k' = k) := fun hEq => hkk hEq.symm
        simp [hp, hknot]
      · simp [hp]
    rw [List.map_cons, List.sum_cons, hrest,
      ih (l.filter (fun p => !decide (p.1 = k))) hks ?_]
    · exact sum_filter_add_sum_filter_not (fun p => decide (p.1 = k)) Prod.snd l
    · intro p hp
      rcases List.mem_filter.mp hp with ⟨hpl, hpk⟩
      have hpkne : ¬(p.1 = k) := by simpa using hpk
      rcases List.mem_cons.mp (hcov p hpl) with h | h
      · exact absurd h hpkne
      · exact h

theorem monthLt_trans : ∀ a b c : Nat × Nat,
    monthLt a b = true → monthLt b c = true → monthLt a c = true := by
  intro a b c hab hbc
  simp only [monthLt, decide_eq_true_eq] at *
  omega

theorem monthLt_tri : ∀ a b : Nat × Nat,
    monthLt a b = false → monthLt b a = false → a = b := by
  intro a b hab hba
  simp only [monthLt, decide_eq_false_iff_not] at *
  push_neg at hab hba
  have h1 : a.1 = b.1 := by omega
  have h2 : a.2 = b.2 := by omega
  exact Prod.ext h1 h2

theorem monthLt_irr : ∀ a : Nat × Nat, monthLt a a = false := by
  intro a
  simp [monthLt]

theorem strLt_trans : ∀ a b c : String,
    strLt a b = true → strLt b c = true → strLt a c = true := by
  intro a b c hab hbc
  simp only [strLt, decide_eq_true_eq] at *
  exact lt_trans hab hbc

theorem strLt_tri : ∀ a b : String,
    strLt a b = false → strLt b a = false → a = b := by
  intro a b hab hba
  simp only [strLt, decide_eq_false_iff_not] at *
  exact le_antisymm (not_lt.mp hba) (not_lt.mp hab)

theorem strLt_irr : ∀ a : String, strLt a a = false := by
  intro a
  simp [strLt]

theorem groupSumBy_sum [DecidableEq κ] {lt : κ → κ → Bool}
    (htrans : ∀ a b c, lt a b = true → lt b c = true → lt a c = true)
    (hirr : ∀ a, lt a a = false)
    (htri : ∀ a b, lt a b = false → lt b a = false → a = b)
    (l : List (κ × ℚ)) :
    ((groupSumBy lt l).map Prod.snd).sum = (l.map Prod.snd).sum := by
  unfold groupSumBy
  rw [List.map_map]
  exact sum_groupParts (keysOf lt (l.map Prod.fst)) l
    (keysOf_nodup htrans hirr (l.map Prod.fst))
    (fun p hp => mem_keysOf htri (List.mem_map_of_mem Prod.fst hp))

theorem groupSumBy_fst_pairwise [DecidableEq κ] {lt : κ → κ → Bool}
    (htrans : ∀ a b c, lt a b = true → lt b c = true → lt a c = true)
    (l : List (κ × ℚ)) :
    (groupSumBy lt l).Pairwise (fun a b => lt a.1 b.1 = true) := by
  unfold groupSumBy
  exact (List.pairwise_map).mpr (keysOf_pairwise htrans (l.map Prod.fst))

theorem list_sum_nonpos {l : List ℚ} (h : ∀ x ∈ l, x ≤ 0) : l.sum ≤ 0 := by
  induction l with
  | nil => simp
  | cons a as ih =>
    simp only [List.sum_cons]
    have h1 := h a (by simp)
    have h2 := ih (fun x hx => h x (by simp [hx]))
    linarith

theorem groupSumBy_val_nonpos [DecidableEq κ] {lt : κ → κ → Bool}
    {l : List (κ × ℚ)} (h : ∀ p ∈ l, p.2 ≤ 0) :
    ∀ p ∈ groupSumBy lt l, p.2 ≤ 0 := by
  intro p hp
  unfold groupSumBy at hp
  rcases List.mem_map.mp hp with ⟨k, _, rfl⟩
  refine list_sum_nonpos ?_
  intro x hx
  rcases List.mem_map.mp hx with ⟨q, hq, rfl⟩
  exact h q (List.mem_filter.mp hq).1

theorem spendingRows_val_neg {l : List Tx} :
    ∀ p ∈ spendingRows l, p.2 < 0 := by
  intro p hp
  rcases List.mem_filterMap.mp hp with ⟨t, _, ht⟩
  by_cases h : t.amount < 0
  · rw [if_pos h] at ht
    cases hcat : t.category with
    | none => rw [hcat] at ht; simp at ht
    | some c =>
      rw [hcat] at ht
      have ht' : (c, t.amount) = p := Option.some.inj ht
      rw [← ht']
      exact h
  · rw [if_neg h] at ht
    simp at ht

theorem spendingRows_sum {l : List Tx}
    (hcat : ∀ t ∈ l, t.amount < 0 → t.category.isSome) :
    ((spendingRows l).map Prod.snd).sum = totalExpensesOf l := by
  induction l with
  | nil => simp [spendingRows, totalExpensesOf]
  | cons t ts ih =>
    have ihs := ih (fun u hu => hcat u (by simp [hu]))
    by_cases h : t.amount < 0
    · cases hc : t.category with
      | none =>
        have hs := hcat t (by simp) h
        rw [hc] at hs
        simp at hs
      | some c =>
        have e1 : spendingRows (t :: ts) = (c, t.amount) :: spendingRows ts := by
          simp [spendingRows, List.filterMap_cons, h, hc]
        have e2 : totalExpensesOf (t :: ts) = t.amount + totalExpensesOf ts := by
          simp [totalExpensesOf, List.filter_cons, h]
        rw [e1, e2, List.map_cons, List.sum_cons, ihs]
    · have e1 : spendingRows (t :: ts) = spendingRows ts := by
        simp [spendingRows, List.filterMap_cons, h]
      have e2 : totalExpensesOf (t :: ts) = totalExpensesOf ts := by
        simp [totalExpensesOf, List.filter_cons, h]
      rw [e1, e2, ihs]

theorem sum_amount_split (l : List Tx) :
    (l.map Tx.amount).sum = totalIncomeOf l + totalExpensesOf l := by
  induction l with
  | nil => simp [totalIncomeOf, totalExpensesOf]
  | cons t ts ih =>
    rcases lt_trichotomy t.amount 0 with h | h | h
    · have h1 : ¬(0 < t.amount) := by linarith
      have e1 : totalIncomeOf (t :: ts) = totalIncomeOf ts := by
        simp [totalIncomeOf, List.filter_cons, h1]
      have e2 : totalExpensesOf (t :: ts) = t.amount + totalExpensesOf ts := by
        simp [totalExpensesOf, List.filter_cons, h]
      rw [List.map_cons, List.sum_cons, e1, e2, ih]
      ring
    · have h1 : ¬(0 < t.amount) := by rw [h]; exact lt_irrefl 0
      have h2 : ¬(t.amount < 0) := by rw [h]; exact lt_irrefl 0
      have e1 : totalIncomeOf (t :: ts) = totalIncomeOf ts := by
        simp [totalIncomeOf, List.filter_cons, h1]
      have e2 : totalExpensesOf (t :: ts) = totalExpensesOf ts := by
        simp [totalExpensesOf, List.filter_cons, h2]
      rw [List.map_cons, List.sum_cons, e1, e2, ih, h]
      ring
    · have h1 : ¬(t.amount < 0) := by linarith
      have e1 : totalIncomeOf (t :: ts) = t.amount + totalIncomeOf ts := by
        simp [totalIncomeOf, List.filter_cons, h]
      have e2 : totalExpensesOf (t :: ts) = totalExpensesOf ts := by
        simp [totalExpensesOf, List.filter_cons, h1]
      rw [List.map_cons, List.sum_cons, e1, e2, ih]
      ring

theorem cumsumFrom_getLast (acc : ℚ) (l : List ℚ) (h : l ≠ []) :
    (cumsumFrom acc l).getLast? = some (acc + l.sum) := by
  induction l generalizing acc with
  | nil => exact absurd rfl h
  | cons a as ih =>
    cases as with
    | nil => simp [cumsumFrom]
    | cons b bs =>
      have e1 : cumsumFrom acc (a :: b :: bs) =
          (acc + a) :: (acc + a + b) :: cumsumFrom (acc + a + b) bs := rfl
      have e2 : (acc + a + b) :: cumsumFrom (acc + a + b) bs =
          cumsumFrom (acc + a) (b :: bs) := rfl
      rw [e1, List.getLast?_cons_cons, e2, ih (acc + a) (by simp)]
      simp only [List.sum_cons]
      ring_nf

/-- C5: `calculate_savings_health` applies its policy in order with first
match winning: non-positive income gives the no-meaningful-income message
with no rate; otherwise a negative net gives the deficit message; otherwise
the rate is banded at 25/15/5 with the boundaries inclusive upward, so a
rate of exactly 15 maps to "good", not "moderate". -/
theorem savings_health_policy (ti te : ℚ) :
    (ti ≤ 0 → calculate_savings_health ti te = SavingsMsg.noIncome) ∧
    (0 < ti → ti + te < 0 →
      calculate_savings_health ti te =
        SavingsMsg.deficit |(ti + te) / ti * 100|) ∧
    (0 < ti → 0 ≤ ti + te → 25 ≤ (ti + te) / ti * 100 →
      calculate_savings_health ti te =
        SavingsMsg.excellent ((ti + te) / ti * 100)) ∧
    (0 < ti → 0 ≤ ti + te → (ti + te) / ti * 100 < 25 →
      15 ≤ (ti + te) / ti * 100 →
      calculate_savings_health ti te =
        SavingsMsg.good ((ti + te) / ti * 100)) ∧
    (0 < ti → 0 ≤ ti + te → (ti + te) / ti * 100 < 15 →
      5 ≤ (ti + te) / ti * 100 →
      calculate_savings_health ti te =
        SavingsMsg.moderate ((ti + te) / ti * 100)) ∧
    (0 < ti → 0 ≤ ti + te → (ti + te) / ti * 100 < 5 →
      calculate_savings_health ti te =
        SavingsMsg.low ((ti + te) / ti * 100)) := by
  refine ⟨?_, ?_, ?_, ?_, ?_, ?_⟩
  · intro h
    simp [calculate_savings_health, h]
  · intro h0 hneg
    simp [calculate_savings_health, not_le.mpr h0, hneg]
  · intro h0 hnn h25
    simp [calculate_savings_health, not_le.mpr h0, not_lt.mpr hnn,
      ge_iff_le, h25]
  · intro h0 hnn h25 h15
    simp [calculate_savings_health, not_le.mpr h0, not_lt.mpr hnn,
      ge_iff_le, not_le.mpr h25, h15]
  · intro h0 hnn h15 h5
    have h25 : (ti + te) / ti * 100 < 25 := lt_trans h15 (by norm_num)
    simp [calculate_savings_health, not_le.mpr h0, not_lt.mpr hnn,
      ge_iff_le, not_le.mpr h25, not_le.mpr h15, h5]
  · intro h0 hnn h5
    have h15 : (ti + te) / ti * 100 < 15 := lt_trans h5 (by norm_num)
    have h25 : (ti + te) / ti * 100 < 25 := lt_trans h5 (by norm_num)
    simp [calculate_savings_health, not_le.mpr h0, not_lt.mpr hnn,
      ge_iff_le, not_le.mpr h25, not_le.mpr h15, not_le.mpr h5]

/-- Witness for C5 at income 100, expenses -85: the rate is exactly 15 and
the classifier answers "good". -/
theorem savings_health_policy_witness :
    calculate_savings_health 100 (-85) = SavingsMsg.good 15 := by
  have h := (savings_health_policy 100 (-85)).2.2.2.1
    (by norm_num) (by norm_num) (by norm_num) (by norm_num)
  have e : ((100 : ℚ) + -85) / 100 * 100 = 15 := by norm_num
  rw [e] at h
  exact h

/-- C2 (amended): on the empty TransactionSet `run` returns without error and
the totals stay 0, but it returns early, so the series/mappings stay `none`
(not empty series) and every analyzer output stays at its absent sentinel
(`none`/`[]`) instead of an informational message. -/
theorem run_on_empty_returns_init (acct : String) :
    (FinancialAnalyzer.run (FinancialAnalyzer.init [] acct)).total_income = 0 ∧
    (FinancialAnalyzer.run (FinancialAnalyzer.init [] acct)).total_expenses = 0 ∧
    (FinancialAnalyzer.run (FinancialAnalyzer.init [] acct)).monthly_summary = none ∧
    (FinancialAnalyzer.run (FinancialAnalyzer.init [] acct)).spending_by_cat = none ∧
    (FinancialAnalyzer.run (FinancialAnalyzer.init [] acct)).cumulative_flow = none ∧
    (FinancialAnalyzer.run (FinancialAnalyzer.init [] acct)).savings_health = none ∧
    (FinancialAnalyzer.run (FinancialAnalyzer.init [] acct)).mom_insights = [] ∧
    (FinancialAnalyzer.run (FinancialAnalyzer.init [] acct)).concentration = none ∧
    (FinancialAnalyzer.run (FinancialAnalyzer.init [] acct)).benchmarks = [] ∧
    (FinancialAnalyzer.run (FinancialAnalyzer.init [] acct)).opportunities = [] ∧
    (FinancialAnalyzer.run (FinancialAnalyzer.init [] acct)).deficit_info = none := by
  have hdf : (FinancialAnalyzer.init [] acct).df = [] := rfl
  rw [FinancialAnalyzer.run, if_pos hdf]
  simp [FinancialAnalyzer.init]

/-- Counterexample to C2 as stated: on the empty TransactionSet the savings
health output is absent (`none`, the model of the initial `""`), not an
informational message, and the monthly series is `none`, not an empty
series. -/
theorem run_on_empty_counterexample :
    (FinancialAnalyzer.run (FinancialAnalyzer.init [] mainAcct)).savings_health
      = none ∧
    (FinancialAnalyzer.run (FinancialAnalyzer.init [] mainAcct)).monthly_summary
      = none := by
  have hdf : (FinancialAnalyzer.init [] mainAcct).df = [] := rfl
  rw [FinancialAnalyzer.run, if_pos hdf]
  exact ⟨rfl, rfl⟩

theorem monthlyNet_txs_ne_nil {txs : List Tx} (h : monthlyNet txs ≠ []) :
    txs ≠ [] := by
  intro hnil
  rw [hnil] at h
  exact h rfl

theorem lastTwo_append (pre : List ((Nat × Nat) × ℚ))
    (x y : (Nat × Nat) × ℚ) : lastTwo (pre ++ [x, y]) = some (x.2, y.2) := by
  simp [lastTwo, List.reverse_append]

/-- C1 (amended): whenever the most recent month's net is negative, the
deficit detector reports exactly the deficit magnitude; no runway estimate
is computed or appended (the message embeds only `abs(latest)`). -/
theorem deficit_reports_magnitude_only (txs : List Tx)
    (pre : List ((Nat × Nat) × ℚ)) (k : Nat × Nat) (v : ℚ)
    (hm : monthlyNet txs = pre ++ [(k, v)]) (hv : v < 0) :
    detect_deficit_and_runway txs = DeficitMsg.latestDeficit |v| := by
  have hne : txs ≠ [] := monthlyNet_txs_ne_nil (by rw [hm]; simp)
  simp only [detect_deficit_and_runway, if_neg hne, hm, List.getLast?_concat]
  rw [if_neg (not_le.mpr hv)]

/-- Witness for the amended C1: monthly nets -100 then -50 produce the plain
deficit message with magnitude 50. -/
theorem deficit_reports_magnitude_only_witness :
    detect_deficit_and_runway exDeficitTxs = DeficitMsg.latestDeficit 50 := by
  have hm : monthlyNet exDeficitTxs
      = [((2024, 1), -100)] ++ [((2024, 2), -50)] := by
    norm_num [monthlyNet, groupSumBy, keysOf, insertKey, monthLt, monthKey,
      exDeficitTxs, List.filterMap_cons, List.filter_cons, List.sum_cons,
      List.sum_nil]
  have h := deficit_reports_magnitude_only exDeficitTxs [((2024, 1), -100)]
    (2024, 2) (-50) hm (by norm_num)
  rw [h]
  norm_num

/-- Counterexample to C1 as stated: for monthly nets [-100, -50] the claim
predicts a message carrying the deficit magnitude 50 and the runway estimate
abs(-150 / -75) = 2; the code's message is not of that form. -/
theorem deficit_runway_counterexample :
    detect_deficit_and_runway exDeficitTxs
      ≠ DeficitMsg.latestDeficitRunway 50 2 := by
  have hval : detect_deficit_and_runway exDeficitTxs
      = DeficitMsg.latestDeficit 50 := by
    norm_num [detect_deficit_and_runway, monthlyNet, groupSumBy, keysOf,
      insertKey, monthLt, monthKey, exDeficitTxs, List.filterMap_cons,
      List.filter_cons, List.sum_cons, List.sum_nil]
    intro h
    simp at h
  rw [hval]
  intro h
  exact DeficitMsg.noConfusion h

/-- C4 (amended): when the two most recent monthly nets are both 0, the
near-zero guard fires first (abs(prev) < 1), so the classifier emits the
"previous month near zero" message, not "stable". -/
theorem trend_zero_prev_near_zero (txs : List Tx)
    (pre : List ((Nat × Nat) × ℚ)) (k1 k2 : Nat × Nat)
    (hm : monthlyNet txs = pre ++ [(k1, 0), (k2, 0)]) :
    generate_month_over_month_insights txs = [TrendMsg.nearZero] := by
  have hne : txs ≠ [] := monthlyNet_txs_ne_nil (by rw [hm]; simp)
  have hl2 : lastTwo (monthlyNet txs) = some (0, 0) := by
    rw [hm]
    exact lastTwo_append pre (k1, 0) (k2, 0)
  simp only [generate_month_over_month_insights, if_neg hne, hl2]
  norm_num

/-- Witness for the amended C4: two months netting 0 and 0. -/
theorem trend_zero_prev_near_zero_witness :
    generate_month_over_month_insights exZeroTxs = [TrendMsg.nearZero] := by
  have hm : monthlyNet exZeroTxs = [] ++ [((2024, 1), 0), ((2024, 2), 0)] := by
    norm_num [monthlyNet, groupSumBy, keysOf, insertKey, monthLt, monthKey,
      exZeroTxs, List.filterMap_cons, List.filter_cons, List.sum_cons,
      List.sum_nil]
  exact trend_zero_prev_near_zero exZeroTxs [] (2024, 1) (2024, 2) hm

/-- Counterexample to C4 as stated: with prev = 0 and last = 0 the trend
classifier does not emit the "stable" message. -/
theorem trend_zero_stable_counterexample :
    generate_month_over_month_insights exZeroTxs ≠ [TrendMsg.stable] := by
  have hval : generate_month_over_month_insights exZeroTxs
      = [TrendMsg.nearZero] := by
    norm_num [generate_month_over_month_insights, monthlyNet, groupSumBy,
      keysOf, insertKey, monthLt, monthKey, exZeroTxs, lastTwo,
      List.filterMap_cons, List.filter_cons, List.sum_cons, List.sum_nil]
    intro h
    simp at h
  rw [hval]
  intro h
  have h1 : TrendMsg.nearZero = TrendMsg.stable := by injection h
  exact TrendMsg.noConfusion h1

/-- C6: with at least two months and abs(prev) >= 1, the trend classifier
computes pct = (last - prev) / abs(prev) * 100 over the two most recent
monthly nets and lands in exactly one of the five bands; in particular
pct = 5 is classified as slight, not significant, improvement. -/
theorem trend_bands (txs : List Tx) (pre : List ((Nat × Nat) × ℚ))
    (k1 k2 : Nat × Nat) (pv lv : ℚ)
    (hm : monthlyNet txs = pre ++ [(k1, pv), (k2, lv)]) (hp : 1 ≤ |pv|) :
    (5 < (lv - pv) / |pv| * 100 →
      generate_month_over_month_insights txs
        = [TrendMsg.sigImprove ((lv - pv) / |pv| * 100)]) ∧
    (0 < (lv - pv) / |pv| * 100 → (lv - pv) / |pv| * 100 ≤ 5 →
      generate_month_over_month_insights txs
        = [TrendMsg.slightImprove ((lv - pv) / |pv| * 100)]) ∧
    ((lv - pv) / |pv| * 100 = 0 →
      generate_month_over_month_insights txs = [TrendMsg.stable]) ∧
    (-5 ≤ (lv - pv) / |pv| * 100 → (lv - pv) / |pv| * 100 < 0 →
      generate_month_over_month_insights txs
        = [TrendMsg.slightDecline ((lv - pv) / |pv| * 100)]) ∧
    ((lv - pv) / |pv| * 100 < -5 →
      generate_month_over_month_insights txs
        = [TrendMsg.sigDecline ((lv - pv) / |pv| * 100)]) := by
  have hne : txs ≠ [] := monthlyNet_txs_ne_nil (by rw [hm]; simp)
  have hl2 : lastTwo (monthlyNet txs) = some (pv, lv) := by
    rw [hm]
    exact lastTwo_append pre (k1, pv) (k2, lv)
  have hnz : ¬(|pv| < 1) := not_lt.mpr hp
  refine ⟨?_, ?_, ?_, ?_, ?_⟩
  · intro h5
    simp only [generate_month_over_month_insights, if_neg hne, hl2]
    rw [if_neg hnz, if_pos h5]
  · intro h0 h5
    simp only [generate_month_over_month_insights, if_neg hne, hl2]
    rw [if_neg hnz, if_neg (not_lt.mpr h5), if_pos h0]
  · intro h0
    simp only [generate_month_over_month_insights, if_neg hne, hl2]
    rw [if_neg hnz, h0]
    norm_num
  · intro hge hlt
    simp only [generate_month_over_month_insights, if_neg hne, hl2]
    rw [if_neg hnz, if_neg (by simpa using not_lt.mpr (by linarith)),
      if_neg (by simpa using not_lt.mpr (le_of_lt hlt)),
      if_neg (not_lt.mpr hge), if_pos hlt]
  · intro hlt
    simp only [generate_month_over_month_insights, if_neg hne, hl2]
    rw [if_neg (by simpa using hnz), if_neg (by simpa using not_lt.mpr (by linarith)),
      if_neg (by simpa using not_lt.mpr (by linarith)), if_pos hlt]

/-- Witness for C6 at monthly nets 100 then 105: pct = 5.0 exactly, and the
classifier answers slight improvement. -/
theorem trend_bands_witness :
    generate_month_over_month_insights exBoundaryTxs
      = [TrendMsg.slightImprove 5] := by
  have hm : monthlyNet exBoundaryTxs
      = [] ++ [((2024, 1), 100), ((2024, 2), 105)] := by
    norm_num [monthlyNet, groupSumBy, keysOf, insertKey, monthLt, monthKey,
      exBoundaryTxs, List.filterMap_cons, List.filter_cons, List.sum_cons,
      List.sum_nil]
  have h := (trend_bands exBoundaryTxs [] (2024, 1) (2024, 2) 100 105 hm
    (by norm_num)).2.1 (by norm_num) (by norm_num)
  have e : ((105 : ℚ) - 100) / |(100 : ℚ)| * 100 = 5 := by norm_num
  rw [e] at h
  exact h

/-- C3 (amended): category_spending is ordered descending by value, but ties
are broken by category label DESCENDING: the groupby index is
label-ascending, and pandas `sort_values(ascending=False)` reverses a stable
ascending argsort, so equal values come out in reverse label order. The
ordering is still deterministic. -/
theorem spending_desc_tie_desc (txs : List Tx) :
    descTieDesc (spendingOf txs) := by
  have h0 := groupSumBy_fst_pairwise strLt_trans (spendingRows txs)
  have h1 : ((groupSumBy strLt (spendingRows txs)).map
      (fun p => (p.1, |p.2|))).Pairwise
      (fun a b : String × ℚ => a.1 < b.1) := by
    refine List.Pairwise.map _ ?_ h0
    intro a b hab
    simpa [strLt] using hab
  have h2 := pairwise_sortVal h1
  unfold descTieDesc spendingOf sortValuesDesc
  rw [List.pairwise_reverse]
  refine h2.imp ?_
  intro a b hab
  rcases hab with h | ⟨heq, hlab⟩
  · exact Or.inl h
  · exact Or.inr ⟨heq.symm, hlab⟩

/-- Counterexample to C3 as stated: two categories "A" and "B" with equal
spending 50 come out as [B, A] — the tie is label-descending, not
label-ascending. -/
theorem spending_tie_asc_counterexample :
    ¬ descTieAsc (spendingOf exTieTxs) := by
  have hBA : ((("B" : String) = "A") = False) := by simp
  have hAB : ((("A" : String) = "B") = False) := by simp
  have hval : spendingOf exTieTxs = [(catB, 50), (catA, 50)] := by
    norm_num [spendingOf, spendingRows, sortValuesDesc, sortBy, insertBy,
      groupSumBy, keysOf, insertKey, strLt, valLe, exTieTxs, catA, catB,
      hBA, hAB, List.filterMap_cons, List.filter_cons, List.sum_cons,
      List.sum_nil]
  rw [hval]
  intro hasc
  rcases List.pairwise_cons.mp hasc with ⟨hBtoA, _⟩
  rcases hBtoA (catA, 50) (by simp) with h | ⟨_, h⟩
  · exact absurd h (by norm_num)
  · have hnot : ¬((catB : String) < catA) := by
      simp [catA, catB]
      decide
    exact hnot h

theorem benchScanRow_eq_some {total : ℚ} {cv : String × ℚ} {m : BenchMsg} :
    benchScanRow total cv = some m ↔
      ∃ th, benchmarkTable.lookup cv.1 = some th ∧
        th + 5 < cv.2 / total * 100 ∧
        m = BenchMsg.warning cv.1 (cv.2 / total * 100)
          (cv.2 / total * 100 - th) := by
  unfold benchScanRow
  cases h : benchmarkTable.lookup cv.1 with
  | none => simp
  | some th =>
    by_cases hc : cv.2 / total * 100 > th + 5
    · simp only [if_pos hc, Option.some.injEq]
      constructor
      · intro hm
        exact ⟨th, rfl, hc, hm.symm⟩
      · rintro ⟨th', hth, _, hm⟩
        subst hth
        exact hm.symm
    · simp [hc]

theorem benchScanRow_eq_none {total : ℚ} {cv : String × ℚ} :
    benchScanRow total cv = none ↔
      ∀ th, benchmarkTable.lookup cv.1 = some th →
        cv.2 / total * 100 ≤ th + 5 := by
  unfold benchScanRow
  cases h : benchmarkTable.lookup cv.1 with
  | none => simp
  | some th =>
    by_cases hc : cv.2 / total * 100 > th + 5
    · simp [hc, not_le.mpr hc]
    · simp [hc, not_lt.mp hc]

theorem oppScanRow_eq_some {total : ℚ} {cv : String × ℚ} {m : OppMsg} :
    oppScanRow total cv = some m ↔
      ∃ th, benchmarkTable.lookup cv.1 = some th ∧
        th + 5 < cv.2 / total * 100 ∧
        m = OppMsg.cut cv.1 (cv.2 - th / 100 * total) := by
  unfold oppScanRow
  cases h : benchmarkTable.lookup cv.1 with
  | none => simp
  | some th =>
    by_cases hc : cv.2 / total * 100 > th + 5
    · simp only [if_pos hc, Option.some.injEq]
      constructor
      · intro hm
        exact ⟨th, rfl, hc, hm.symm⟩
      · rintro ⟨th', hth, _, hm⟩
        subst hth
        exact hm.symm
    · simp [hc]

theorem oppScanRow_eq_none {total : ℚ} {cv : String × ℚ} :
    oppScanRow total cv = none ↔
      ∀ th, benchmarkTable.lookup cv.1 = some th →
        cv.2 / total * 100 ≤ th + 5 := by
  unfold oppScanRow
  cases h : benchmarkTable.lookup cv.1 with
  | none => simp
  | some th =>
    by_cases hc : cv.2 / total * 100 > th + 5
    · simp [hc, not_le.mpr hc]
    · simp [hc, not_lt.mp hc]

theorem bench_warning_mem_iff {s : List (String × ℚ)}
    (hguard : ¬(s = [] ∨ totalSpend s = 0)) {c : String} {pct d : ℚ} :
    BenchMsg.warning c pct d ∈ benchmark_spending s ↔
      ∃ v, (c, v) ∈ s ∧ ∃ th, benchmarkTable.lookup c = some th ∧
        pct = v / totalSpend s * 100 ∧ th + 5 < pct ∧ d = pct - th := by
  rw [benchmark_spending, if_neg hguard]
  by_cases hmsgs : s.filterMap (benchScanRow (totalSpend s)) = []
  · rw [if_pos hmsgs]
    constructor
    · intro hmem
      have h := List.mem_singleton.mp hmem
      exact absurd h (fun hh => BenchMsg.noConfusion hh)
    · rintro ⟨v, hv, th, hth, hpct, hflag, hd⟩
      exfalso
      have hrow : benchScanRow (totalSpend s) (c, v)
          = some (BenchMsg.warning c pct d) := by
        refine benchScanRow_eq_some.mpr ⟨th, hth, ?_, ?_⟩
        · rw [← hpct]
          exact hflag
        · rw [hpct, hd, hpct]
      have hmem2 : BenchMsg.warning c pct d
          ∈ s.filterMap (benchScanRow (totalSpend s)) :=
        List.mem_filterMap.mpr ⟨(c, v), hv, hrow⟩
      rw [hmsgs] at hmem2
      simp at hmem2
  · rw [if_neg hmsgs, List.mem_filterMap]
    constructor
    · rintro ⟨cv, hcv, hrow⟩
      rcases benchScanRow_eq_some.mp hrow with ⟨th, hth, hflag, hm⟩
      injection hm with h1 h2 h3
      refine ⟨cv.2, ?_, th, ?_, ?_, ?_, ?_⟩
      · rw [h1]
        exact hcv
      · rw [h1]
        exact hth
      · exact h2
      · rw [h2]
        exact hflag
      · rw [h3, h2]
    · rintro ⟨v, hv, th, hth, hpct, hflag, hd⟩
      refine ⟨(c, v), hv, benchScanRow_eq_some.mpr ⟨th, hth, ?_, ?_⟩⟩
      · rw [← hpct]
        exact hflag
      · rw [hpct, hd, hpct]

theorem opp_cut_mem_iff {s : List (String × ℚ)}
    (hguard : ¬(s = [] ∨ totalSpend s = 0)) {c : String} {sv : ℚ} :
    OppMsg.cut c sv ∈ calculate_spending_opportunity s ↔
      ∃ v, (c, v) ∈ s ∧ ∃ th, benchmarkTable.lookup c = some th ∧
        th + 5 < v / totalSpend s * 100 ∧
        sv = v - th / 100 * totalSpend s := by
  rw [calculate_spending_opportunity, if_neg hguard]
  by_cases hmsgs : s.filterMap (oppScanRow (totalSpend s)) = []
  · rw [if_pos hmsgs]
    constructor
    · intro hmem
      have h := List.mem_singleton.mp hmem
      exact absurd h (fun hh => OppMsg.noConfusion hh)
    · rintro ⟨v, hv, th, hth, hflag, hd⟩
      exfalso
      have hrow : oppScanRow (totalSpend s) (c, v)
          = some (OppMsg.cut c sv) := by
        refine oppScanRow_eq_some.mpr ⟨th, hth, hflag, ?_⟩
        rw [hd]
      have hmem2 : OppMsg.cut c sv
          ∈ s.filterMap (oppScanRow (totalSpend s)) :=
        List.mem_filterMap.mpr ⟨(c, v), hv, hrow⟩
      rw [hmsgs] at hmem2
      simp at hmem2
  · rw [if_neg hmsgs, List.mem_filterMap]
    constructor
    · rintro ⟨cv, hcv, hrow⟩
      rcases oppScanRow_eq_some.mp hrow with ⟨th, hth, hflag, hm⟩
      injection hm with h1 h2
      refine ⟨cv.2, ?_, th, ?_, hflag, h2⟩
      · rw [h1]
        exact hcv
      · rw [h1]
        exact hth
    · rintro ⟨v, hv, th, hth, hflag, hd⟩
      refine ⟨(c, v), hv, oppScanRow_eq_some.mpr ⟨th, hth, hflag, ?_⟩⟩
      rw [hd]

theorem lookup_housing : benchmarkTable.lookup housingCat = some 30 := by
  simp [benchmarkTable, housingCat, List.lookup]

/-- C7: with a non-empty spending mapping of positive total, a warning is
emitted for a category iff it is in the benchmark table and its share of
total spending exceeds its benchmark by strictly more than 5 percentage
points (categories outside the table are never flagged); and when nothing is
flagged the output is exactly the single within-guidelines message. -/
theorem benchmark_flags_iff (s : List (String × ℚ)) (hne : s ≠ [])
    (hpos : 0 < totalSpend s) :
    (∀ c pct d, BenchMsg.warning c pct d ∈ benchmark_spending s ↔
      ∃ v, (c, v) ∈ s ∧ ∃ th, benchmarkTable.lookup c = some th ∧
        pct = v / totalSpend s * 100 ∧ th + 5 < pct ∧ d = pct - th) ∧
    ((∀ cv ∈ s, ∀ th, benchmarkTable.lookup cv.1 = some th →
        cv.2 / totalSpend s * 100 ≤ th + 5) →
      benchmark_spending s = [BenchMsg.within]) := by
  have hguard : ¬(s = [] ∨ totalSpend s = 0) := by
    push_neg
    exact ⟨hne, ne_of_gt hpos⟩
  constructor
  · intro c pct d
    exact bench_warning_mem_iff hguard
  · intro hall
    rw [benchmark_spending, if_neg hguard]
    have hmsgs : s.filterMap (benchScanRow (totalSpend s)) = [] :=
      List.filterMap_eq_nil_iff.mpr
        (fun cv hcv => benchScanRow_eq_none.mpr (hall cv hcv))
    rw [if_pos hmsgs]

/-- Witness for C7: Housing at 4000 of a 10000 total (share 40% against the
30% benchmark) is flagged with share 40 and excess 10. -/
theorem benchmark_flags_iff_witness :
    BenchMsg.warning housingCat 40 10 ∈ benchmark_spending exSpending := by
  have h := (benchmark_flags_iff exSpending (by simp [exSpending])
    (by norm_num [exSpending, totalSpend])).1 housingCat 40 10
  refine h.mpr ⟨4000, by simp [exSpending], 30, lookup_housing, ?_, ?_, ?_⟩
  · norm_num [exSpending, totalSpend]
  · norm_num
  · norm_num

/-- C8: the opportunity calculator flags exactly the categories the
benchmark comparator flags (same table, tolerance, total and shares), emits
`actual - benchmark_pct/100 * total` for each flagged category, and a single
no-quick-wins message when nothing is flagged. -/
theorem opportunity_matches_benchmark (s : List (String × ℚ)) (hne : s ≠ [])
    (hpos : 0 < totalSpend s) :
    (∀ c, (∃ sv, OppMsg.cut c sv ∈ calculate_spending_opportunity s) ↔
      (∃ pct d, BenchMsg.warning c pct d ∈ benchmark_spending s)) ∧
    (∀ c v th, (c, v) ∈ s → benchmarkTable.lookup c = some th →
      th + 5 < v / totalSpend s * 100 →
      OppMsg.cut c (v - th / 100 * totalSpend s)
        ∈ calculate_spending_opportunity s) ∧
    ((∀ cv ∈ s, ∀ th, benchmarkTable.lookup cv.1 = some th →
        cv.2 / totalSpend s * 100 ≤ th + 5) →
      calculate_spending_opportunity s = [OppMsg.noQuickWins]) := by
  have hguard : ¬(s = [] ∨ totalSpend s = 0) := by
    push_neg
    exact ⟨hne, ne_of_gt hpos⟩
  refine ⟨?_, ?_, ?_⟩
  · intro c
    constructor
    · rintro ⟨sv, hsv⟩
      rcases (opp_cut_mem_iff hguard).mp hsv with ⟨v, hv, th, hth, hflag, _⟩
      exact ⟨v / totalSpend s * 100, v / totalSpend s * 100 - th,
        (bench_warning_mem_iff hguard).mpr ⟨v, hv, th, hth, rfl, hflag, rfl⟩⟩
    · rintro ⟨pct, d, hpd⟩
      rcases (bench_warning_mem_iff hguard).mp hpd with
        ⟨v, hv, th, hth, hpct, hflag, _⟩
      refine ⟨v - th / 100 * totalSpend s,
        (opp_cut_mem_iff hguard).mpr ⟨v, hv, th, hth, ?_, rfl⟩⟩
      rw [← hpct]
      exact hflag
  · intro c v th hv hth hflag
    exact (opp_cut_mem_iff hguard).mpr ⟨v, hv, th, hth, hflag, rfl⟩
  · intro hall
    rw [calculate_spending_opportunity, if_neg hguard]
    have hmsgs : s.filterMap (oppScanRow (totalSpend s)) = [] :=
      List.filterMap_eq_nil_iff.mpr
        (fun cv hcv => oppScanRow_eq_none.mpr (hall cv hcv))
    rw [if_pos hmsgs]

/-- Witness for C8: Housing at 4000 of a 10000 total against the 30%
benchmark is flagged and yields an opportunity of exactly 1000. -/
theorem opportunity_matches_benchmark_witness :
    OppMsg.cut housingCat 1000 ∈ calculate_spending_opportunity exSpending := by
  have h := (opportunity_matches_benchmark exSpending (by simp [exSpending])
    (by norm_num [exSpending, totalSpend])).2.1 housingCat 4000 30
    (by simp [exSpending]) lookup_housing
    (by norm_num [exSpending, totalSpend])
  have e : (4000 : ℚ) - 30 / 100 * totalSpend exSpending = 1000 := by
    norm_num [totalSpend, exSpending]
  rw [e] at h
  exact h

theorem sum_abs_of_nonpos {κ : Type} {g : List (κ × ℚ)}
    (h : ∀ p ∈ g, p.2 ≤ 0) :
    ((g.map (fun p => (p.1, |p.2|))).map Prod.snd).sum
      = -((g.map Prod.snd).sum) := by
  induction g with
  | nil => simp
  | cons p ps ih =>
    simp only [List.map_cons, List.sum_cons]
    rw [ih (fun q hq => h q (by simp [hq])), abs_of_nonpos (h p (by simp))]
    ring

/-- C9: when every negative-amount transaction has a (non-NaN) category, the
values of the category-spending mapping sum to abs(total_expenses). -/
theorem spending_sum_eq_abs_expenses (l : List Tx)
    (hcat : ∀ t ∈ l, t.amount < 0 → t.category.isSome) :
    ((spendingOf l).map Prod.snd).sum = |totalExpensesOf l| := by
  have hneg : ∀ p ∈ spendingRows l, p.2 ≤ 0 :=
    fun p hp => le_of_lt (spendingRows_val_neg p hp)
  have hg := @groupSumBy_val_nonpos String _ strLt (spendingRows l) hneg
  have h1 : ((spendingOf l).map Prod.snd).sum
      = (((groupSumBy strLt (spendingRows l)).map
          (fun p => (p.1, |p.2|))).map Prod.snd).sum := by
    unfold spendingOf sortValuesDesc
    rw [List.map_reverse, List.sum_reverse]
    exact ((sortBy_perm valLe _).map Prod.snd).sum_eq
  have h2 := sum_abs_of_nonpos hg
  have h3 := groupSumBy_sum strLt_trans strLt_irr strLt_tri (spendingRows l)
  have h4 := spendingRows_sum hcat
  have hte : totalExpensesOf l ≤ 0 := by
    unfold totalExpensesOf
    refine list_sum_nonpos ?_
    intro x hx
    rcases List.mem_map.mp hx with ⟨t, ht, rfl⟩
    exact le_of_lt (by simpa using (List.mem_filter.mp ht).2)
  rw [h1, h2, h3, h4, abs_of_nonpos hte]

/-- Witness for C9: one income row and one categorized -50 expense row; the
mapping's values sum to abs(total_expenses) = 50. -/
theorem spending_sum_eq_abs_expenses_witness :
    ((spendingOf exMixedTxs).map Prod.snd).sum = |totalExpensesOf exMixedTxs| ∧
    |totalExpensesOf exMixedTxs| = 50 := by
  constructor
  · exact spending_sum_eq_abs_expenses exMixedTxs (by decide)
  · norm_num [totalExpensesOf, exMixedTxs, List.filter_cons]

/-- C10: for every account-filtered nonempty TransactionSet, the last value
of the cumulative-flow series equals total_income + total_expenses. -/
theorem cumulative_last_eq_net (df : List Tx) (acct : String)
    (hne : (FinancialAnalyzer.init df acct).df ≠ []) :
    ∃ cs,
      (FinancialAnalyzer.run (FinancialAnalyzer.init df acct)).cumulative_flow
        = some cs ∧
      cs.getLast? = some
        ((FinancialAnalyzer.run (FinancialAnalyzer.init df acct)).total_income
          + (FinancialAnalyzer.run
              (FinancialAnalyzer.init df acct)).total_expenses) := by
  refine ⟨cumulativeOf (FinancialAnalyzer.init df acct).df, ?_, ?_⟩
  · rw [FinancialAnalyzer.run, if_neg hne]
  · have hrun1 :
        (FinancialAnalyzer.run (FinancialAnalyzer.init df acct)).total_income
          = totalIncomeOf (FinancialAnalyzer.init df acct).df := by
      rw [FinancialAnalyzer.run, if_neg hne]
    have hrun2 :
        (FinancialAnalyzer.run (FinancialAnalyzer.init df acct)).total_expenses
          = totalExpensesOf (FinancialAnalyzer.init df acct).df := by
      rw [FinancialAnalyzer.run, if_neg hne]
    rw [hrun1, hrun2]
    unfold cumulativeOf
    have hsne :
        (sortBy txDateLe (FinancialAnalyzer.init df acct).df).map Tx.amount
          ≠ [] := by
      intro hmm
      have hnil : sortBy txDateLe (FinancialAnalyzer.init df acct).df = [] :=
        List.map_eq_nil_iff.mp hmm
      have hlen : (FinancialAnalyzer.init df acct).df.length = 0 := by
        rw [← (sortBy_perm txDateLe (FinancialAnalyzer.init df acct).df).length_eq,
          hnil]
        rfl
      exact hne (List.length_eq_zero.mp hlen)
    rw [cumsumFrom_getLast 0 _ hsne]
    have hperm :=
      (sortBy_perm txDateLe (FinancialAnalyzer.init df acct).df).map Tx.amount
    rw [zero_add, hperm.sum_eq, sum_amount_split]

/-- Witness for C10 on a concrete two-row set under the main account. -/
theorem cumulative_last_eq_net_witness :
    ∃ cs,
      (FinancialAnalyzer.run
        (FinancialAnalyzer.init exMixedTxs mainAcct)).cumulative_flow
        = some cs ∧
      cs.getLast? = some
        ((FinancialAnalyzer.run
            (FinancialAnalyzer.init exMixedTxs mainAcct)).total_income
          + (FinancialAnalyzer.run
              (FinancialAnalyzer.init exMixedTxs mainAcct)).total_expenses) :=
  cumulative_last_eq_net exMixedTxs mainAcct (by decide)
